import Mathlib

/-!
# Verification of the obsidian-chat ingestion-and-retrieval core

A shallow embedding, in Lean 4, of the core pipeline of the `obsidian-chat`
repository: the chunker (`app/services/chunker.py`), the vault scanner
(`app/services/vault_manager.py`), the vector store
(`app/services/vectorstore.py`) and the OpenAI embedder
(`app/services/embedder/openai_impl.py`), together with theorems settling
the specification claims about them.

Python strings are modelled as `List Char`, floating-point vectors as
`List ℚ` (the provider's values are opaque to the code under study; only the
exactly representable zero vector is ever constructed by it), database rows
as structures mirroring `app/db/models.py`, and the per-vault FAISS index
file as an optional list of vectors.  SQLAlchemy queries without `ORDER BY`
return rows in the backend-determined table order, which the model keeps as
the order of the row list it is given.
-/

set_option autoImplicit false

namespace ObsidianChat

/-- Decidable equality of `Except` values, for evaluating the model's
fallible operations on concrete inputs. -/
instance instDecEqExcept {ε α : Type} [DecidableEq ε] [DecidableEq α] :
    DecidableEq (Except ε α) := fun x y =>
  match x, y with
  | .ok a, .ok b =>
    if h : a = b then isTrue (by rw [h]) else isFalse (by simp [h])
  | .error a, .error b =>
    if h : a = b then isTrue (by rw [h]) else isFalse (by simp [h])
  | .ok _, .error _ => isFalse (by simp)
  | .error _, .ok _ => isFalse (by simp)

/-! ## Chunker (`app/services/chunker.py`)

`Chunker._create_chunks` splits a text into overlapping windows.  The SHA-256
content hash (`Chunker._calculate_hash`, an external primitive from
`hashlib`) is abstracted as a parameter `hash`. -/

/-- A row of the `chunks` table as built by `Chunker._create_chunks`
(`document_id`, `content`, `sequence`, `chunk_hash`; the `embedding_stored`
flag defaults to false and is not set by the chunker). -/
structure ChunkRow where
  document_id : String
  content : List Char
  sequence : Nat
  chunk_hash : List Char
  deriving Repr, DecidableEq

/-- Python slice `text[s:e]` for `0 ≤ s ≤ e` (the only shape occurring in
`_create_chunks`, where `0 ≤ start ≤ end ≤ len(text)`). -/
def pySlice (text : List Char) (s e : Nat) : List Char :=
  (text.take e).drop s

/-- The `while start < len(text)` loop of `Chunker._create_chunks`
(lines 88–117), with the loop counter `start` and `sequence` passed
explicitly and a fuel argument standing for the (finite, when
`chunk_overlap < chunk_size`) number of remaining iterations.  Each
iteration computes `end = min(start + chunk_size, len)`, shifts
`start` back by `chunk_overlap` when `start > 0` and recomputes `end`,
emits `text[start:end]`, and continues from `start = end`. -/
def chunkLoop (hash : List Char → List Char) (document_id : String)
    (chunk_size chunk_overlap : Nat) (text : List Char) :
    Nat → Nat → Nat → List ChunkRow
  | 0, _, _ => []
  | fuel + 1, start, sequence =>
    if start < text.length then
      let end0 := min (start + chunk_size) text.length
      let start' := if 0 < start then start - chunk_overlap else start
      let end' := if 0 < start then min (start' + chunk_size) text.length else end0
      let chunk_text := pySlice text start' end'
      { document_id := document_id, content := chunk_text, sequence := sequence,
        chunk_hash := hash chunk_text } ::
        chunkLoop hash document_id chunk_size chunk_overlap text fuel end' (sequence + 1)
    else []

/-- `Chunker._create_chunks(text, document_id)` (lines 63–119): one chunk of
the whole text when `len(text) <= chunk_size`, otherwise the sliding-window
loop from `start = 0`, `sequence = 0`.  `text.length + 1` units of fuel are
sufficient for the loop whenever `chunk_overlap < chunk_size`, since every
iteration strictly increases `start`. -/
def create_chunks (hash : List Char → List Char) (document_id : String)
    (chunk_size chunk_overlap : Nat) (text : List Char) : List ChunkRow :=
  if text.length ≤ chunk_size then
    [{ document_id := document_id, content := text, sequence := 0,
       chunk_hash := hash text }]
  else
    chunkLoop hash document_id chunk_size chunk_overlap text (text.length + 1) 0 0

/-! ### The claimed window description (spec side)

C2 describes the chunks as windows of the text: first window
`[0, min S len)`, each subsequent window starting at the previous window's
end minus `V` and ending at `min (start + S) len`, stopping once a window's
end reaches `len`.  These definitions follow that description. -/

/-- Windows after the first: given the previous window's end `e`, while
`e < len` the next window is `[e - V, min (e - V + S) len)`. -/
def specWindowsFrom (S V len : Nat) : Nat → Nat → List (Nat × Nat)
  | 0, _ => []
  | fuel + 1, e =>
    if e < len then
      (e - V, min (e - V + S) len) :: specWindowsFrom S V len fuel (min (e - V + S) len)
    else []

/-- All windows: the first is `[0, min S len)`, the rest follow it. -/
def specWindows (S V len : Nat) : List (Nat × Nat) :=
  (0, min S len) :: specWindowsFrom S V len (len + 1) (min S len)

/-- Chunks as described by the claim: for a short text a single full chunk of
sequence 0; otherwise one chunk per window, with sequence numbers
`0, 1, 2, …` in window order. -/
def specChunks (hash : List Char → List Char) (document_id : String)
    (S V : Nat) (text : List Char) : List ChunkRow :=
  if text.length ≤ S then
    [{ document_id := document_id, content := text, sequence := 0,
       chunk_hash := hash text }]
  else
    (specWindows S V text.length).enum.map fun p =>
      { document_id := document_id, content := pySlice text p.2.1 p.2.2,
        sequence := p.1, chunk_hash := hash (pySlice text p.2.1 p.2.2) }

/-- Build one chunk row per window, numbering sequences from `seq`. -/
def windowChunks (hash : List Char → List Char) (document_id : String)
    (text : List Char) : List (Nat × Nat) → Nat → List ChunkRow
  | [], _ => []
  | (s, e) :: ws, seq =>
    { document_id := document_id, content := pySlice text s e, sequence := seq,
      chunk_hash := hash (pySlice text s e) } ::
      windowChunks hash document_id text ws (seq + 1)

/-- Reassembling chunks as C5 describes it: concatenate the chunks in
order, dropping the first `V` characters of every chunk after the first. -/
def reassemble (V : Nat) : List ChunkRow → List Char
  | [] => []
  | c :: cs => c.content ++ (cs.map fun d => d.content.drop V).flatten

/-! ### Chunker lemmas -/

theorem pySlice_length {text : List Char} {s e : Nat} (he : e ≤ text.length)
    (hse : s ≤ e) : (pySlice text s e).length = e - s := by
  simp only [pySlice, List.length_drop, List.length_take]
  omega

theorem pySlice_drop {text : List Char} (s e V : Nat) :
    (pySlice text s e).drop V = pySlice text (s + V) e := by
  simp only [pySlice, List.drop_drop]

theorem pySlice_append_drop {text : List Char} {e e' : Nat} (h : e ≤ e')
    (h' : e' ≤ text.length) : pySlice text e e' ++ text.drop e' = text.drop e := by
  have hlen : e ≤ (List.take e' text).length := by
    rw [List.length_take]; omega
  conv_rhs => rw [← List.take_append_drop e' text, List.drop_append_of_le_length hlen]
  rfl

/-- Successive window ends strictly increase when the overlap is smaller than
the chunk size. -/
theorem specWindow_next_lt (S V len e : Nat) (hVS : V < S) (he : e < len) :
    e < min (e - V + S) len := by
  omega

/-- The fuel argument of `specWindowsFrom` is irrelevant once it covers the
remaining length. -/
theorem specWindowsFrom_fuel {S V len : Nat} (hVS : V < S) :
    ∀ (fuel₁ fuel₂ e : Nat), len ≤ e + fuel₁ → len ≤ e + fuel₂ →
      specWindowsFrom S V len fuel₁ e = specWindowsFrom S V len fuel₂ e := by
  intro fuel₁
  induction fuel₁ with
  | zero =>
    intro fuel₂ e h₁ _
    have h₁' : len ≤ e := by omega
    cases fuel₂ with
    | zero => rfl
    | succ m => simp [specWindowsFrom, Nat.not_lt.mpr h₁']
  | succ n ih =>
    intro fuel₂ e h₁ h₂
    cases fuel₂ with
    | zero =>
      have h₂' : len ≤ e := by omega
      simp [specWindowsFrom, Nat.not_lt.mpr h₂']
    | succ m =>
      simp only [specWindowsFrom]
      by_cases he : e < len
      · simp only [if_pos he]
        have hnext := specWindow_next_lt S V len e hVS he
        refine congrArg _ (ih m (min (e - V + S) len) ?_ ?_) <;> omega
      · simp [if_neg he]

/-- The body of the `while` loop of `_create_chunks`, entered with
`start > 0`, produces exactly one chunk per claimed window. -/
theorem chunkLoop_eq_windowChunks (hash : List Char → List Char)
    (document_id : String) {S V : Nat} (text : List Char) (hVS : V < S) :
    ∀ (fuel e seq : Nat), 0 < e →
      chunkLoop hash document_id S V text fuel e seq =
        windowChunks hash document_id text
          (specWindowsFrom S V text.length fuel e) seq := by
  intro fuel
  induction fuel with
  | zero => intro e seq _; rfl
  | succ n ih =>
    intro e seq he
    simp only [chunkLoop, specWindowsFrom]
    by_cases hlt : e < text.length
    · simp only [if_pos hlt, if_pos he, windowChunks]
      have hpos : 0 < min (e - V + S) text.length := by omega
      rw [ih (min (e - V + S) text.length) (seq + 1) hpos]
    · simp [if_neg hlt, windowChunks]

/-- Chunk rows built from enumerated windows coincide with `windowChunks`. -/
theorem enumFrom_map_eq_windowChunks (hash : List Char → List Char)
    (document_id : String) (text : List Char) :
    ∀ (ws : List (Nat × Nat)) (n : Nat),
      (ws.enumFrom n).map (fun p =>
        ({ document_id := document_id, content := pySlice text p.2.1 p.2.2,
           sequence := p.1, chunk_hash := hash (pySlice text p.2.1 p.2.2) } : ChunkRow)) =
        windowChunks hash document_id text ws n := by
  intro ws
  induction ws with
  | nil => intro n; rfl
  | cons w ws ih =>
    intro n
    simp only [List.enumFrom, List.map_cons, windowChunks, ih (n + 1)]

/-- **C2.** The chunks produced by `Chunker._create_chunks` are exactly the
claimed windows: one full-text chunk of sequence 0 when
`len(text) <= chunk_size`; otherwise the first window is `[0, min S len)`,
each subsequent window starts at the previous window's end minus `V` and
ends at `min (start + S) len`, iteration stops once a window's end reaches
`len`, and sequence numbers are assigned `0, 1, 2, …` in window order. -/
theorem chunker_windows_correct (hash : List Char → List Char)
    (document_id : String) (S V : Nat) (text : List Char) (hVS : V < S) :
    create_chunks hash document_id S V text = specChunks hash document_id S V text := by
  by_cases hshort : text.length ≤ S
  · simp [create_chunks, specChunks, hshort]
  · have hS : S < text.length := Nat.not_le.mp hshort
    have hS1 : 1 ≤ S := by omega
    simp only [create_chunks, specChunks, if_neg hshort]
    have hmin : min S text.length = S := Nat.min_eq_left (Nat.le_of_lt hS)
    -- unfold the first loop iteration (start = 0, no overlap adjustment)
    have hfirst : chunkLoop hash document_id S V text (text.length + 1) 0 0 =
        { document_id := document_id, content := pySlice text 0 (min S text.length),
          sequence := 0, chunk_hash := hash (pySlice text 0 (min S text.length)) } ::
          chunkLoop hash document_id S V text text.length (min S text.length) 1 := by
      simp only [chunkLoop]
      rw [if_pos (by omega : 0 < text.length)]
      simp
    rw [hfirst,
      chunkLoop_eq_windowChunks hash document_id text hVS text.length (min S text.length) 1
        (by omega),
      specWindowsFrom_fuel hVS text.length (text.length + 1) (min S text.length)
        (by omega) (by omega)]
    show _ = (List.enumFrom 0 (specWindows S V text.length)).map _
    rw [enumFrom_map_eq_windowChunks]
    simp [specWindows, windowChunks]

/-- Dropping the overlap from the tail windows reconstructs the suffix of the
text from the previous window's end. -/
theorem specWindowsFrom_reassemble {S V : Nat} (text : List Char) (hVS : V < S) :
    ∀ (fuel e : Nat), V ≤ e → e ≤ text.length → text.length ≤ e + fuel →
      ((specWindowsFrom S V text.length fuel e).map
        (fun w => (pySlice text w.1 w.2).drop V)).flatten = text.drop e := by
  intro fuel
  induction fuel with
  | zero =>
    intro e _ h₂ h₃
    have : e = text.length := by omega
    subst this
    simp [specWindowsFrom, List.drop_length]
  | succ n ih =>
    intro e hVe h₂ h₃
    simp only [specWindowsFrom]
    by_cases hlt : e < text.length
    · have hnext := specWindow_next_lt S V text.length e hVS hlt
      rw [if_pos hlt, List.map_cons, List.flatten_cons,
        ih (min (e - V + S) text.length) (by omega) (by omega) (by omega),
        pySlice_drop]
      have hEV : e - V + V = e := by omega
      rw [hEV]
      exact pySlice_append_drop (by omega) (by omega)
    · have : e = text.length := by omega
      subst this
      simp [if_neg hlt, List.drop_length]

theorem windowChunks_map_drop (hash : List Char → List Char)
    (document_id : String) (text : List Char) (V : Nat) :
    ∀ (ws : List (Nat × Nat)) (n : Nat),
      (windowChunks hash document_id text ws n).map (fun c => c.content.drop V) =
        ws.map (fun w => (pySlice text w.1 w.2).drop V) := by
  intro ws
  induction ws with
  | nil => intro n; rfl
  | cons w ws ih => intro n; simp [windowChunks, ih (n + 1)]

/-- **C5.** For `len(text) > S` and `0 ≤ V < S`, concatenating the produced
chunks in sequence order while dropping the first `V` characters of every
chunk after the first reconstructs the text exactly. -/
theorem chunker_lossless (hash : List Char → List Char) (document_id : String)
    (S V : Nat) (text : List Char) (hVS : V < S) (hlong : S < text.length) :
    reassemble V (create_chunks hash document_id S V text) = text := by
  have hshort : ¬ text.length ≤ S := by omega
  simp only [create_chunks, if_neg hshort]
  have hfirst : chunkLoop hash document_id S V text (text.length + 1) 0 0 =
      { document_id := document_id, content := pySlice text 0 (min S text.length),
        sequence := 0, chunk_hash := hash (pySlice text 0 (min S text.length)) } ::
        chunkLoop hash document_id S V text text.length (min S text.length) 1 := by
    simp only [chunkLoop]
    rw [if_pos (by omega : 0 < text.length)]
    simp
  rw [hfirst,
    chunkLoop_eq_windowChunks hash document_id text hVS text.length (min S text.length) 1
      (by omega)]
  simp only [reassemble, windowChunks_map_drop]
  have hmin : min S text.length = S := Nat.min_eq_left (Nat.le_of_lt hlong)
  rw [hmin, specWindowsFrom_reassemble text hVS text.length S (by omega) (by omega)
    (by omega)]
  simp [pySlice]

/-- Every claimed tail window, generated from a previous end `e` with
`V < e ≤ len`, is a subrange of the text of length between `V + 1` and `S`. -/
theorem specWindowsFrom_bounds {S V len : Nat} (hVS : V < S) :
    ∀ (fuel e : Nat), V < e → e ≤ len →
      ∀ w ∈ specWindowsFrom S V len fuel e,
        w.1 + V < w.2 ∧ w.2 ≤ len ∧ w.2 - w.1 ≤ S := by
  intro fuel
  induction fuel with
  | zero => intro e _ _ w hw; simp [specWindowsFrom] at hw
  | succ n ih =>
    intro e hVe hlen w hw
    simp only [specWindowsFrom] at hw
    by_cases hlt : e < len
    · rw [if_pos hlt] at hw
      rcases List.mem_cons.mp hw with h | h
      · subst h
        refine ⟨by omega, by omega, by omega⟩
      · have hnext := specWindow_next_lt S V len e hVS hlt
        exact ih (min (e - V + S) len) (by omega) (by omega) w h
    · rw [if_neg hlt] at hw
      simp at hw

theorem windowChunks_content_mem (hash : List Char → List Char)
    (document_id : String) (text : List Char) :
    ∀ (ws : List (Nat × Nat)) (n : Nat) (c : ChunkRow),
      c ∈ windowChunks hash document_id text ws n →
        ∃ w ∈ ws, c.content = pySlice text w.1 w.2 := by
  intro ws
  induction ws with
  | nil => intro n c hc; simp [windowChunks] at hc
  | cons w ws ih =>
    intro n c hc
    rcases List.mem_cons.mp hc with h | h
    · exact ⟨w, List.mem_cons_self w ws, by rw [h]⟩
    · obtain ⟨w', hw', hc'⟩ := ih (n + 1) c h
      exact ⟨w', List.mem_cons_of_mem w hw', hc'⟩

/-- **C10.** For `len(text) > S` and `0 ≤ V < S`, every produced chunk is
non-empty: its content length is at most `S` and at least `V + 1`. -/
theorem chunker_chunk_bounds (hash : List Char → List Char) (document_id : String)
    (S V : Nat) (text : List Char) (hVS : V < S) (hlong : S < text.length) :
    ∀ c ∈ create_chunks hash document_id S V text,
      V + 1 ≤ c.content.length ∧ c.content.length ≤ S := by
  have hshort : ¬ text.length ≤ S := by omega
  intro c hc
  simp only [create_chunks, if_neg hshort] at hc
  have hfirst : chunkLoop hash document_id S V text (text.length + 1) 0 0 =
      { document_id := document_id, content := pySlice text 0 (min S text.length),
        sequence := 0, chunk_hash := hash (pySlice text 0 (min S text.length)) } ::
        chunkLoop hash document_id S V text text.length (min S text.length) 1 := by
    simp only [chunkLoop]
    rw [if_pos (by omega : 0 < text.length)]
    simp
  rw [hfirst,
    chunkLoop_eq_windowChunks hash document_id text hVS text.length (min S text.length) 1
      (by omega)] at hc
  have hmin : min S text.length = S := Nat.min_eq_left (Nat.le_of_lt hlong)
  rcases List.mem_cons.mp hc with h | h
  · subst h
    simp only [hmin]
    rw [pySlice_length (by omega) (by omega)]
    omega
  · obtain ⟨w, hw, hcw⟩ := windowChunks_content_mem hash document_id text _ 1 c h
    rw [hmin] at hw
    obtain ⟨h₁, h₂, h₃⟩ := specWindowsFrom_bounds hVS text.length S (by omega)
      (by omega) w hw
    rw [hcw, pySlice_length (by omega) (by omega)]
    omega

/-! ## Vault scanner (`app/services/vault_manager.py`)

`VaultManager.scan_vault` walks the vault directory, classifies every
markdown file against the stored documents by content hash, and finally sets
the vault's `is_indexed` flag.  The filesystem walk and
`FileParser.parse_file` are external: the model takes the enumerated files
together with each file's parse outcome (`some content_hash`, or `none` when
`parse_file` raised).  Freshly inserted rows receive their `id` from a UUID
default on the column; ids are irrelevant to the scanner itself, so new rows
are modelled with an empty id. -/

/-- A row of the `vaults` table (the fields `scan_vault` touches). -/
structure VaultRow where
  id : String
  name : String
  path : String
  is_indexed : Bool
  deriving Repr, DecidableEq

/-- A row of the `documents` table (the fields `scan_vault` touches). -/
structure DocumentRow where
  id : String
  vault_id : String
  path : String
  filename : String
  content_hash : String
  deriving Repr, DecidableEq

/-- The `stats` dictionary of `scan_vault`. -/
structure ScanStats where
  total_files : Nat
  new_files : Nat
  updated_files : Nat
  unchanged_files : Nat
  errors : Nat
  deriving Repr, DecidableEq

/-- One file found by `vault_path.glob("**/*.md")`, with the outcome of
`FileParser.parse_file` on it: `some h` for a successful parse with content
hash `h`, `none` when reading or parsing raised. -/
structure ScannedFile where
  relative_path : String
  filename : String
  parse : Option String
  deriving Repr, DecidableEq

/-- The per-file loop of `scan_vault` (lines 109–138).  `existing` carries
the vault's documents loaded before the loop (the `existing_paths` dict;
updates mutate these rows in place), `added` the rows inserted for new
files.  Each file either raises (caught, `errors += 1`), matches an existing
path (hash compared: update or unchanged), or is inserted as a new
document. -/
def scanLoop (vault_id : String) :
    List ScannedFile → List DocumentRow → List DocumentRow → ScanStats →
      List DocumentRow × List DocumentRow × ScanStats
  | [], existing, added, stats => (existing, added, stats)
  | f :: fs, existing, added, stats =>
    match f.parse with
    | none =>
      scanLoop vault_id fs existing added { stats with errors := stats.errors + 1 }
    | some h =>
      match existing.find? (fun d => d.path == f.relative_path) with
      | some doc =>
        if doc.content_hash ≠ h then
          scanLoop vault_id fs
            (existing.map fun d =>
              if d.path == f.relative_path then { d with content_hash := h } else d)
            added { stats with updated_files := stats.updated_files + 1 }
        else
          scanLoop vault_id fs existing added
            { stats with unchanged_files := stats.unchanged_files + 1 }
      | none =>
        scanLoop vault_id fs existing
          (added ++ [{ id := "", vault_id := vault_id, path := f.relative_path,
                       filename := f.filename, content_hash := h }])
          { stats with new_files := stats.new_files + 1 }

/-- `VaultManager.scan_vault(vault_id)` (lines 70–144): `ValueError` when the
vault does not exist or its path is missing; otherwise `total_files` is set
to the number of enumerated files up front, every file is processed by the
loop, and the vault's `is_indexed` flag is set true before returning the
stats.  Returns the updated vault row, the existing rows (possibly with
updated hashes), the inserted rows, and the stats. -/
def scan_vault (vaultQuery : Option VaultRow) (path_exists : Bool)
    (files : List ScannedFile) (existing_docs : List DocumentRow) :
    Except String (VaultRow × List DocumentRow × List DocumentRow × ScanStats) :=
  match vaultQuery with
  | none => .error "Vault not found"
  | some vault =>
    if path_exists then
      let stats0 : ScanStats :=
        { total_files := files.length, new_files := 0, updated_files := 0,
          unchanged_files := 0, errors := 0 }
      let r := scanLoop vault.id files existing_docs [] stats0
      .ok ({ vault with is_indexed := true }, r.1, r.2.1, r.2.2)
    else .error "Vault path does not exist"

/-! ### Scanner lemmas -/

/-- Each file processed by the loop increments exactly one of the four
category counters, and an unparsable file increments exactly the error
counter; `total_files` is never touched by the loop. -/
theorem scanLoop_counts (vault_id : String) :
    ∀ (files : List ScannedFile) (existing added : List DocumentRow)
      (stats : ScanStats),
      (scanLoop vault_id files existing added stats).2.2.new_files +
          (scanLoop vault_id files existing added stats).2.2.updated_files +
          (scanLoop vault_id files existing added stats).2.2.unchanged_files +
          (scanLoop vault_id files existing added stats).2.2.errors =
        stats.new_files + stats.updated_files + stats.unchanged_files +
          stats.errors + files.length ∧
      (scanLoop vault_id files existing added stats).2.2.errors =
        stats.errors + files.countP (fun f => f.parse.isNone) ∧
      (scanLoop vault_id files existing added stats).2.2.total_files =
        stats.total_files := by
  intro files
  induction files with
  | nil =>
    intro existing added stats
    exact ⟨by simp [scanLoop], by simp [scanLoop], by simp [scanLoop]⟩
  | cons f fs ih =>
    intro existing added stats
    match hp : f.parse with
    | none =>
      have hcp : (f :: fs).countP (fun f => f.parse.isNone) =
          fs.countP (fun f => f.parse.isNone) + 1 := by
        simp [List.countP_cons, hp]
      simp only [scanLoop, hp]
      obtain ⟨h₁, h₂, h₃⟩ := ih existing added { stats with errors := stats.errors + 1 }
      refine ⟨?_, ?_, ?_⟩
      · rw [h₁]; simp only [List.length_cons]; omega
      · rw [h₂, hcp]; simp only []; omega
      · rw [h₃]
    | some h =>
      have hcp : (f :: fs).countP (fun f => f.parse.isNone) =
          fs.countP (fun f => f.parse.isNone) := by
        simp [List.countP_cons, hp]
      match hf : existing.find? (fun d => d.path == f.relative_path) with
      | some doc =>
        by_cases hne : doc.content_hash ≠ h
        · simp only [scanLoop, hp, hf, if_pos hne]
          obtain ⟨h₁, h₂, h₃⟩ := ih
            (existing.map fun d =>
              if d.path == f.relative_path then { d with content_hash := h } else d)
            added { stats with updated_files := stats.updated_files + 1 }
          refine ⟨?_, ?_, ?_⟩
          · rw [h₁]; simp only [List.length_cons]; omega
          · rw [h₂, hcp]
          · rw [h₃]
        · simp only [scanLoop, hp, hf, if_neg hne]
          obtain ⟨h₁, h₂, h₃⟩ := ih existing added
            { stats with unchanged_files := stats.unchanged_files + 1 }
          refine ⟨?_, ?_, ?_⟩
          · rw [h₁]; simp only [List.length_cons]; omega
          · rw [h₂, hcp]
          · rw [h₃]
      | none =>
        simp only [scanLoop, hp, hf]
        obtain ⟨h₁, h₂, h₃⟩ := ih existing
          (added ++ [{ id := "", vault_id := vault_id, path := f.relative_path,
                       filename := f.filename, content_hash := h }])
          { stats with new_files := stats.new_files + 1 }
        refine ⟨?_, ?_, ?_⟩
        · rw [h₁]; simp only [List.length_cons]; omega
        · rw [h₂, hcp]
        · rw [h₃]

/-- **C6.** Whenever `scan_vault` completes (existing vault, existing root
path), the reported total equals `new + updated + unchanged + errors`, so
every enumerated file lands in exactly one category; moreover the error
count is exactly the number of files whose read/parse failed, so per-file
failures are counted without aborting the scan of the remaining files. -/
theorem scan_total_partition (vaultQuery : Option VaultRow) (path_exists : Bool)
    (files : List ScannedFile) (existing_docs : List DocumentRow)
    (out : VaultRow × List DocumentRow × List DocumentRow × ScanStats)
    (hok : scan_vault vaultQuery path_exists files existing_docs = .ok out) :
    out.2.2.2.total_files =
        out.2.2.2.new_files + out.2.2.2.updated_files +
          out.2.2.2.unchanged_files + out.2.2.2.errors ∧
      out.2.2.2.errors = files.countP (fun f => f.parse.isNone) := by
  match vaultQuery with
  | none => simp [scan_vault] at hok
  | some vault =>
    by_cases hp : path_exists
    · simp only [scan_vault, if_pos hp, Except.ok.injEq] at hok
      obtain ⟨h₁, h₂, h₃⟩ := scanLoop_counts vault.id files existing_docs []
        { total_files := files.length, new_files := 0, updated_files := 0,
          unchanged_files := 0, errors := 0 }
      subst hok
      simp only [] at h₁ h₂ h₃ ⊢
      constructor
      · rw [h₃, h₁]; omega
      · rw [h₂]; omega
    · simp [scan_vault, if_neg hp] at hok

/-- **C9.** Every completed scan (one that returns stats rather than
raising) leaves the vault's `is_indexed` flag true, unconditionally — in
particular also when every enumerated file was counted as an error. -/
theorem scan_sets_is_indexed (vaultQuery : Option VaultRow) (path_exists : Bool)
    (files : List ScannedFile) (existing_docs : List DocumentRow)
    (out : VaultRow × List DocumentRow × List DocumentRow × ScanStats)
    (hok : scan_vault vaultQuery path_exists files existing_docs = .ok out) :
    out.1.is_indexed = true := by
  match vaultQuery with
  | none => simp [scan_vault] at hok
  | some vault =>
    by_cases hp : path_exists
    · simp only [scan_vault, if_pos hp, Except.ok.injEq] at hok
      subst hok
      rfl
    · simp [scan_vault, if_neg hp] at hok

/-! ## Vector store (`app/services/vectorstore.py`)

`VectorStore.create_or_update_index` and `VectorStore.search` work over the
relational rows and one FAISS `IndexFlatL2` file per vault.  Vectors are
modelled over `ℚ`; the index file of a vault is the list of its vectors in
append order (`faiss.write_index` persists exactly the in-memory vector
sequence), and a missing entry models a missing file.  The embedder is the
abstract `BaseEmbedder` interface, passed in as functions.

FAISS `IndexFlatL2.search(q, k)` returns, for the query, exactly `k`
(label, distance) pairs: the indices of the stored vectors in ascending
order of squared L2 distance, padded with label `-1` and distance `+∞`
(`HUGE_VALF`, the untouched heap initialiser) when fewer than `k` vectors
are stored — distances are therefore modelled in `WithTop ℚ`, the padding
distance being `⊤`.  The SQLAlchemy queries:
the pending-chunk query of `create_or_update_index` has **no** `ORDER BY`
and yields rows in backend table order (the order of the `chunks` list
here), while `search` orders embedded chunks by `Chunk.id`, a random UUID
string, compared lexicographically. -/

/-- A row of the `chunks` table as the vector store reads it (`chunk_hash`
is never consulted by `vectorstore.py` and is omitted). -/
structure StoredChunk where
  id : String
  document_id : String
  content : List Char
  sequence : Nat
  embedding_stored : Bool
  deriving Repr, DecidableEq

/-- Database and filesystem state seen by `VectorStore`: the `chunks` list
is in backend table order, `indexFiles` maps a vault id to the persisted
vector sequence of `{vault_id}.index`. -/
structure StoreState where
  vaults : List VaultRow
  documents : List DocumentRow
  chunks : List StoredChunk
  indexFiles : List (String × List (List ℚ))
  deriving Repr, DecidableEq

/-- Result dictionary of `create_or_update_index` (the counting fields). -/
structure IndexStats where
  chunks_processed : Nat
  vectors_added : Nat
  deriving Repr, DecidableEq

/-- The result dictionary assembled by `VectorStore.search` for one hit:
`chunk_id`, `document_id`, `document_path`, `document_name`, `content`,
`sequence` — and nothing else. -/
structure SearchResult where
  chunk_id : String
  document_id : String
  document_path : String
  document_name : String
  content : List Char
  sequence : Nat
  deriving Repr, DecidableEq

/-- Reading `{vault_id}.index`: `none` models a missing file. -/
def getIndex (st : StoreState) (vault_id : String) : Option (List (List ℚ)) :=
  (st.indexFiles.find? fun p => p.1 == vault_id).map (·.2)

/-- `faiss.write_index` to `{vault_id}.index`: overwrite or create. -/
def setIndex (files : List (String × List (List ℚ))) (vault_id : String)
    (vectors : List (List ℚ)) : List (String × List (List ℚ)) :=
  if files.any fun p => p.1 == vault_id then
    files.map fun p => if p.1 == vault_id then (vault_id, vectors) else p
  else
    files ++ [(vault_id, vectors)]

/-- The `join(Document).filter(Document.vault_id == vault_id)` condition:
a chunk belongs to the vault when its owning document does. -/
def chunkInVault (st : StoreState) (vault_id : String) (c : StoredChunk) : Bool :=
  st.documents.any fun d => d.id == c.document_id && d.vault_id == vault_id

/-- The pending-chunk query of `create_or_update_index` (lines 63–66):
all chunks of the vault with `embedding_stored == False`, **no** `ORDER BY`,
hence in backend table order. -/
def pendingChunks (st : StoreState) (vault_id : String) : List StoredChunk :=
  st.chunks.filter fun c => chunkInVault st vault_id c && !c.embedding_stored

/-- The marking pass of `create_or_update_index` (lines 102–105): a chunk
whose id is among the processed ids gets `embedding_stored = True`. -/
def markEmbedded (ids : List String) (c : StoredChunk) : StoredChunk :=
  if ids.contains c.id then { c with embedding_stored := true } else c

/-- `VectorStore.create_or_update_index(vault_id)` (lines 44–111).
`embedBatch` is the embedder's `embed_batch`.  A missing vault raises; with
no pending chunks the call returns `{0, 0}` before touching the index file;
otherwise the batch embeddings are appended to the loaded (or fresh) index,
the index is written back, and the processed chunks are marked
`embedding_stored = True`. -/
def create_or_update_index (embedBatch : List (List Char) → List (List ℚ))
    (st : StoreState) (vault_id : String) : Except String (StoreState × IndexStats) :=
  if st.vaults.any fun v => v.id == vault_id then
    let chunks := pendingChunks st vault_id
    if chunks.isEmpty then
      .ok (st, { chunks_processed := 0, vectors_added := 0 })
    else
      let chunk_contents := chunks.map (·.content)
      let chunk_ids := chunks.map (·.id)
      let embeddings := embedBatch chunk_contents
      let index := (getIndex st vault_id).getD [] ++ embeddings
      let st' : StoreState :=
        { st with
          indexFiles := setIndex st.indexFiles vault_id index,
          chunks := st.chunks.map (markEmbedded chunk_ids) }
      .ok (st', { chunks_processed := chunks.length, vectors_added := embeddings.length })
  else .error "Vault not found"

/-- Squared L2 distance, the metric of `faiss.IndexFlatL2`. -/
def l2sq (q v : List ℚ) : ℚ :=
  ((q.zip v).map fun p => (p.1 - p.2) * (p.1 - p.2)).foldr (· + ·) 0

/-- Insert a scored vector into a distance-sorted list (stable: ties keep
the earlier vector first, matching FAISS's deterministic flat scan). -/
def insertByDist (p : Int × ℚ) : List (Int × ℚ) → List (Int × ℚ)
  | [] => [p]
  | q :: rest => if p.2 < q.2 then p :: q :: rest else q :: insertByDist p rest

/-- Sort scored vectors by ascending distance. -/
def sortByDist : List (Int × ℚ) → List (Int × ℚ)
  | [] => []
  | p :: rest => insertByDist p (sortByDist rest)

/-- `faiss.IndexFlatL2.search` for one query: the stored vectors scored by
squared L2 distance, sorted ascending, the first `k` taken, padded with
label `-1` and distance `⊤` (FAISS's `HUGE_VALF`, `+∞`) up to exactly `k`
entries when fewer than `k` vectors are stored. -/
def knnSearch (vectors : List (List ℚ)) (q : List ℚ) (k : Nat) :
    List (Int × WithTop ℚ) :=
  let scored := vectors.enum.map fun p => ((p.1 : Int), l2sq q p.2)
  let top := (sortByDist scored).take k
  top.map (fun p => (p.1, (p.2 : WithTop ℚ))) ++
    List.replicate (k - top.length) (-1, ⊤)

/-- Insert a chunk row into an id-sorted list. -/
def insertById (c : StoredChunk) : List StoredChunk → List StoredChunk
  | [] => [c]
  | d :: rest => if c.id < d.id then c :: d :: rest else d :: insertById c rest

/-- Sort chunk rows by `Chunk.id` (lexicographic on the UUID string), the
`order_by(Chunk.id)` of `search`. -/
def sortById : List StoredChunk → List StoredChunk
  | [] => []
  | c :: rest => insertById c (sortById rest)

/-- The `all_chunks` query of `search` (lines 144–147): the vault's chunks
with `embedding_stored == True`, ordered by `Chunk.id`. -/
def embeddedChunksById (st : StoreState) (vault_id : String) : List StoredChunk :=
  sortById (st.chunks.filter fun c => chunkInVault st vault_id c && c.embedding_stored)

/-- Python `all_chunks[idx]` for an `int64` index: non-negative indices read
from the front, negative indices from the back (`-1` is the last element);
`none` where Python would raise `IndexError`. -/
def pyIndex (chunks : List StoredChunk) (idx : Int) : Option StoredChunk :=
  if 0 ≤ idx then chunks.get? idx.toNat
  else
    let j : Int := (chunks.length : Int) + idx
    if 0 ≤ j then chunks.get? j.toNat else none

/-- Assemble the result record for one resolved chunk (lines 158–167). -/
def mkResult (st : StoreState) (chunk : StoredChunk) : SearchResult :=
  let doc := st.documents.find? fun d => d.id == chunk.document_id
  { chunk_id := chunk.id, document_id := chunk.document_id,
    document_path := (doc.map (·.path)).getD "Unknown",
    document_name := (doc.map (·.filename)).getD "Unknown",
    content := chunk.content, sequence := chunk.sequence }

/-- The `for idx in I[0]` result loop of `search` (lines 154–167), keeping
each label's distance alongside: a label is resolved when `idx <
len(all_chunks)` (note a padding label `-1` passes this check and resolves,
via Python negative indexing, to the **last** chunk).  The unresolvable
`pyIndex = none` case, where Python would raise, is skipped; it is
unreachable for FAISS labels against a non-empty chunk list. -/
def resolveWithDist (st : StoreState) (all_chunks : List StoredChunk) :
    List (Int × WithTop ℚ) → List (SearchResult × WithTop ℚ)
  | [] => []
  | (idx, dist) :: rest =>
    if idx < (all_chunks.length : Int) then
      match pyIndex all_chunks idx with
      | some chunk => (mkResult st chunk, dist) :: resolveWithDist st all_chunks rest
      | none => resolveWithDist st all_chunks rest
    else resolveWithDist st all_chunks rest

/-- `VectorStore.search(vault_id, query, top_k)` (lines 113–169).
`embedText` is the embedder's `embed_text`.  Raises when no index file
exists; loads the index, embeds the query, runs the k-NN search, fetches
the embedded chunks ordered by `Chunk.id`, returns `[]` when there are none
(or no labels), and otherwise resolves each label into a result record. -/
def search (embedText : List Char → List ℚ) (st : StoreState) (vault_id : String)
    (query : List Char) (top_k : Nat) : Except String (List SearchResult) :=
  match getIndex st vault_id with
  | none => .error "No index found for vault"
  | some vectors =>
    let query_embedding := embedText query
    let hits := knnSearch vectors query_embedding top_k
    let all_chunks := embeddedChunksById st vault_id
    if all_chunks.isEmpty || hits.isEmpty then .ok []
    else .ok ((resolveWithDist st all_chunks hits).map (·.1))

/-! ### Vector store lemmas -/

theorem insertById_length (c : StoredChunk) :
    ∀ l : List StoredChunk, (insertById c l).length = l.length + 1 := by
  intro l
  induction l with
  | nil => rfl
  | cons d rest ih =>
    simp only [insertById]
    split
    · simp
    · simp [ih]

theorem sortById_length : ∀ l : List StoredChunk, (sortById l).length = l.length := by
  intro l
  induction l with
  | nil => rfl
  | cons c rest ih => simp [sortById, insertById_length, ih]

/-- **C8.** When the vault exists and every one of its chunks is already
embedded, `create_or_update_index` returns `{chunks_processed := 0,
vectors_added := 0}` and returns the state unchanged: in particular the
on-disk index file (`indexFiles`) is untouched, hence byte-identical. -/
theorem build_no_pending_is_noop (embedBatch : List (List Char) → List (List ℚ))
    (st : StoreState) (vault_id : String)
    (hvault : (st.vaults.any fun v => v.id == vault_id) = true)
    (hall : ∀ c ∈ st.chunks, chunkInVault st vault_id c = true →
      c.embedding_stored = true) :
    create_or_update_index embedBatch st vault_id =
      .ok (st, { chunks_processed := 0, vectors_added := 0 }) := by
  have hpend : pendingChunks st vault_id = [] := by
    rw [pendingChunks, List.filter_eq_nil_iff]
    intro c hc
    cases hin : chunkInVault st vault_id c with
    | false => simp [hin]
    | true => simp [hin, hall c hc hin]
  simp [create_or_update_index, hvault, hpend]

/-- **C7.** `search` on a vault with no index file fails (the
`ValueError` raised on line 130); `search` on a vault whose index file
exists but holds zero vectors returns `[]` without error — the second half
under the store-consistency invariant that the number of embedded chunks of
the vault equals the number of vectors in its index (zero here), which
every `create_or_update_index` run maintains. -/
theorem search_no_index_and_empty_index (embedText : List Char → List ℚ)
    (st : StoreState) (vault_id : String) (q : List Char) (k : Nat) :
    (getIndex st vault_id = none →
      search embedText st vault_id q k = .error "No index found for vault") ∧
    (getIndex st vault_id = some [] →
      (st.chunks.filter fun c =>
        chunkInVault st vault_id c && c.embedding_stored).length =
          ([] : List (List ℚ)).length →
      search embedText st vault_id q k = .ok []) := by
  constructor
  · intro h
    simp [search, h]
  · intro h hlen
    have hemp : (embeddedChunksById st vault_id).isEmpty = true := by
      rw [List.isEmpty_iff_length_eq_zero, embeddedChunksById, sortById_length]
      simpa using hlen
    simp [search, h, hemp]

/-! ### Ordering of index slots versus chunk resolution (C1)

The pending-chunk query of `create_or_update_index` carries no `ORDER BY`,
so vectors are appended in backend table order, while `search` resolves
ordinals through chunks ordered by `Chunk.id` (a random UUID).  The two
orders need not agree; the following concrete run exhibits the mismatch. -/

/-- A vault with one document and two pending chunks whose backend table
order (id "b" first, then id "a") disagrees with id order. -/
def mismatchSt : StoreState :=
  { vaults := [{ id := "v", name := "v", path := "/v", is_indexed := true }],
    documents := [{ id := "d", vault_id := "v", path := "a.md", filename := "a.md",
                    content_hash := "h" }],
    chunks := [{ id := "b", document_id := "d", content := ['B'], sequence := 1,
                 embedding_stored := false },
               { id := "a", document_id := "d", content := ['A'], sequence := 0,
                 embedding_stored := false }],
    indexFiles := [] }

/-- A batch embedder mapping content `"B"` to vector `[1]` and everything
else to `[0]`, order-preserving as the provider contract requires. -/
def mismatchEmbed : List (List Char) → List (List ℚ) :=
  fun xs => xs.map fun t => if t = ['B'] then [1] else [0]

/-- The state `create_or_update_index mismatchEmbed mismatchSt "v"`
produces: both chunks marked embedded, index holding chunk "b"'s vector at
ordinal 0 and chunk "a"'s at ordinal 1. -/
def mismatchStAfter : StoreState :=
  { vaults := [{ id := "v", name := "v", path := "/v", is_indexed := true }],
    documents := [{ id := "d", vault_id := "v", path := "a.md", filename := "a.md",
                    content_hash := "h" }],
    chunks := [{ id := "b", document_id := "d", content := ['B'], sequence := 1,
                 embedding_stored := true },
               { id := "a", document_id := "d", content := ['A'], sequence := 0,
                 embedding_stored := true }],
    indexFiles := [("v", [[1], [0]])] }

/-- **C1, counterexample.**  The pending selection fetches chunk "b" before
chunk "a" (table order; no ordering key is applied), so the vector at
ordinal 0 of the index is chunk "b"'s embedding `[1]` — chunk "b" is the
rank-0 chunk in the order embedding was performed.  Yet a search whose
nearest neighbour is ordinal 0 resolves it through the id-ordered chunk
list and returns chunk "a": the ordinal position of chunk "b"'s vector
(0) does not equal the position search assigns it (1), refuting the claimed
correspondence. -/
theorem index_order_mismatch_cex :
    (pendingChunks mismatchSt "v").map (fun c => c.id) = ["b", "a"] ∧
    create_or_update_index mismatchEmbed mismatchSt "v" =
      .ok (mismatchStAfter, { chunks_processed := 2, vectors_added := 2 }) ∧
    getIndex mismatchStAfter "v" = some [[1], [0]] ∧
    search (fun _ => [1]) mismatchStAfter "v" ['q'] 1 =
      .ok [{ chunk_id := "a", document_id := "d", document_path := "a.md",
             document_name := "a.md", content := ['A'], sequence := 0 }] :=
  ⟨rfl, by with_unfolding_all rfl, rfl, by with_unfolding_all rfl⟩

theorem markEmbedded_id (ids : List String) (c : StoredChunk) :
    (markEmbedded ids c).id = c.id := by
  rw [markEmbedded]
  split <;> rfl

theorem markEmbedded_document_id (ids : List String) (c : StoredChunk) :
    (markEmbedded ids c).document_id = c.document_id := by
  rw [markEmbedded]
  split <;> rfl

/-- Sorting by id leaves a strictly id-sorted list unchanged. -/
theorem sortById_eq_self :
    ∀ {l : List StoredChunk},
      List.Pairwise (fun a b : StoredChunk => a.id < b.id) l → sortById l = l := by
  intro l
  induction l with
  | nil => intro _; rfl
  | cons c rest ih =>
    intro h
    rw [sortById, ih (List.Pairwise.of_cons h)]
    cases rest with
    | nil => rfl
    | cons d rest2 =>
      have hcd : c.id < d.id :=
        (List.pairwise_cons.mp h).1 d (List.mem_cons_self d rest2)
      simp [insertById, hcd]

theorem chunkInVault_markEmbedded (st : StoreState) (vault_id : String)
    (ids : List String) (c : StoredChunk) :
    chunkInVault st vault_id (markEmbedded ids c) = chunkInVault st vault_id c := by
  rw [chunkInVault, chunkInVault, markEmbedded_document_id]

theorem find?_append_of_none {α : Type} (p : α → Bool) (l : List α) (x : α)
    (h : ∀ a ∈ l, p a = false) (hx : p x = true) :
    (l ++ [x]).find? p = some x := by
  induction l with
  | nil => simp [List.find?, hx]
  | cons a as ih =>
    have ha := h a (List.mem_cons_self a as)
    rw [List.cons_append, List.find?_cons_of_neg _ (by simp [ha])]
    exact ih fun b hb => h b (List.mem_cons_of_mem a hb)

/-- Fully-applied form of `create_or_update_index` in the non-trivial case:
vault present, at least one pending chunk. -/
theorem create_or_update_index_spec (embedBatch : List (List Char) → List (List ℚ))
    (st : StoreState) (vault_id : String)
    (hv : (st.vaults.any fun v => v.id == vault_id) = true)
    (hne : (pendingChunks st vault_id).isEmpty = false) :
    create_or_update_index embedBatch st vault_id =
      .ok ({ st with
              indexFiles := setIndex st.indexFiles vault_id
                ((getIndex st vault_id).getD [] ++
                  embedBatch ((pendingChunks st vault_id).map (·.content))),
              chunks := st.chunks.map
                (markEmbedded ((pendingChunks st vault_id).map (·.id))) },
            { chunks_processed := (pendingChunks st vault_id).length,
              vectors_added :=
                (embedBatch ((pendingChunks st vault_id).map (·.content))).length }) := by
  rw [create_or_update_index]
  simp only [hv, if_true, hne]
  rfl

/-- **C1, amended.**  The pending-chunk query of `create_or_update_index`
has no `ORDER BY`: vectors are appended in backend table order, while
`search` resolves ordinals through the vault's embedded chunks ordered by
`Chunk.id` (a random UUID string), not the same key.  The claimed
correspondence therefore only holds when the pending rows happen to come
back sorted by id: starting from a vault with no index file and no
embedded chunk, if the pending selection is strictly id-sorted then after
one build the index holds exactly the batch embeddings of the pending
chunks in fetch order, and the id-ordered resolution list used by `search`
has the chunk of ordinal `i` at position `i` for every `i`. -/
theorem build_then_resolution_aligned
    (embedBatch : List (List Char) → List (List ℚ)) (st : StoreState)
    (vault_id : String) (st' : StoreState) (stats : IndexStats)
    (hsorted : List.Pairwise (fun a b : StoredChunk => a.id < b.id)
      (pendingChunks st vault_id))
    (hnoemb : ∀ c ∈ st.chunks, chunkInVault st vault_id c = true →
      c.embedding_stored = false)
    (hidx : getIndex st vault_id = none)
    (hne : pendingChunks st vault_id ≠ [])
    (hok : create_or_update_index embedBatch st vault_id = .ok (st', stats)) :
    getIndex st' vault_id =
      some (embedBatch ((pendingChunks st vault_id).map (·.content))) ∧
    ∀ i : Nat, ((embeddedChunksById st' vault_id).get? i).map (·.id) =
      ((pendingChunks st vault_id).get? i).map (·.id) := by
  have hne' : (pendingChunks st vault_id).isEmpty = false := by
    cases hp : pendingChunks st vault_id
    · exact absurd hp hne
    · rfl
  by_cases hv : (st.vaults.any fun v => v.id == vault_id) = true
  swap
  · rw [create_or_update_index, if_neg hv] at hok
    cases hok
  rw [create_or_update_index_spec embedBatch st vault_id hv hne'] at hok
  simp only [Except.ok.injEq, Prod.mk.injEq] at hok
  obtain ⟨hst, -⟩ := hok
  subst hst
  have hfind : st.indexFiles.find? (fun p => p.1 == vault_id) = none := by
    rw [getIndex] at hidx
    exact Option.map_eq_none'.mp hidx
  have hnotin : ∀ p ∈ st.indexFiles, (p.1 == vault_id) = false := by
    intro p hp
    exact Bool.eq_false_iff.mpr (List.find?_eq_none.mp hfind p hp)
  have hany : (st.indexFiles.any fun p => p.1 == vault_id) = false :=
    List.any_eq_false.mpr fun p hp => by simp [hnotin p hp]
  constructor
  · show ((setIndex st.indexFiles vault_id _).find? (fun p => p.1 == vault_id)).map _ =
      _
    rw [setIndex, if_neg (by simp [hany]),
      find?_append_of_none _ _ _ hnotin (by simp), hidx]
    simp
  · intro i
    have hfilter :
        (st.chunks.map (markEmbedded ((pendingChunks st vault_id).map (·.id)))).filter
          (fun c => chunkInVault st vault_id c && c.embedding_stored) =
        (pendingChunks st vault_id).map
          (markEmbedded ((pendingChunks st vault_id).map (·.id))) := by
      rw [List.filter_map]
      refine congrArg (List.map _) ?_
      rw [pendingChunks]
      apply List.filter_congr
      intro c hc
      simp only [Function.comp_apply, chunkInVault_markEmbedded]
      cases hin : chunkInVault st vault_id c with
      | false => simp
      | true =>
        have hemb := hnoemb c hc hin
        have hcpend : c ∈ pendingChunks st vault_id := by
          rw [pendingChunks, List.mem_filter]
          exact ⟨hc, by simp [hin, hemb]⟩
        have hmem : c.id ∈ (pendingChunks st vault_id).map (·.id) :=
          List.mem_map_of_mem (·.id) hcpend
        have hcont : ((pendingChunks st vault_id).map (·.id)).contains c.id = true :=
          List.elem_iff.mpr hmem
        rw [pendingChunks] at hcont
        simp only [markEmbedded, hin, hemb, Bool.not_false, Bool.and_true]
        split
        · rfl
        · next hcond => exact absurd hcont hcond
    have hall : embeddedChunksById
        { st with
          indexFiles := setIndex st.indexFiles vault_id
            ((getIndex st vault_id).getD [] ++
              embedBatch ((pendingChunks st vault_id).map (·.content))),
          chunks := st.chunks.map
            (markEmbedded ((pendingChunks st vault_id).map (·.id))) } vault_id =
        (pendingChunks st vault_id).map
          (markEmbedded ((pendingChunks st vault_id).map (·.id))) := by
      show sortById
        ((st.chunks.map (markEmbedded ((pendingChunks st vault_id).map (·.id)))).filter
          (fun c => chunkInVault st vault_id c && c.embedding_stored)) = _
      rw [hfilter]
      apply sortById_eq_self
      rw [List.pairwise_map]
      exact hsorted.imp fun {a b} h => by
        rwa [markEmbedded_id, markEmbedded_id]
    simp only [List.get?_eq_getElem?]
    rw [hall, List.getElem?_map, Option.map_map]
    have : ((fun c : StoredChunk => c.id) ∘
        markEmbedded ((pendingChunks st vault_id).map (·.id))) =
        (fun c : StoredChunk => c.id) := by
      funext c
      exact markEmbedded_id _ c
    rw [this]

/-! ### Shape and order of search results (C4) -/

theorem insertByDist_length (p : Int × ℚ) :
    ∀ l : List (Int × ℚ), (insertByDist p l).length = l.length + 1 := by
  intro l
  induction l with
  | nil => rfl
  | cons q rest ih =>
    simp only [insertByDist]
    split
    · simp
    · simp [ih]

theorem sortByDist_length :
    ∀ l : List (Int × ℚ), (sortByDist l).length = l.length := by
  intro l
  induction l with
  | nil => rfl
  | cons p rest ih => simp [sortByDist, insertByDist_length, ih]

theorem insertByDist_mem (p x : Int × ℚ) :
    ∀ l : List (Int × ℚ), x ∈ insertByDist p l ↔ x = p ∨ x ∈ l := by
  intro l
  induction l with
  | nil => simp [insertByDist]
  | cons q rest ih =>
    simp only [insertByDist]
    split
    · simp [or_comm, or_assoc, List.mem_cons]
    · simp only [List.mem_cons, ih]
      tauto

theorem insertByDist_pairwise (p : Int × ℚ) :
    ∀ l : List (Int × ℚ),
      List.Pairwise (fun a b : Int × ℚ => a.2 ≤ b.2) l →
        List.Pairwise (fun a b : Int × ℚ => a.2 ≤ b.2) (insertByDist p l) := by
  intro l
  induction l with
  | nil => intro _; simp [insertByDist]
  | cons q rest ih =>
    intro h
    obtain ⟨hq, hrest⟩ := List.pairwise_cons.mp h
    simp only [insertByDist]
    split
    · next hlt =>
      refine List.pairwise_cons.mpr ⟨?_, h⟩
      intro x hx
      rcases List.mem_cons.mp hx with rfl | hx
      · exact le_of_lt hlt
      · exact le_trans (le_of_lt hlt) (hq x hx)
    · next hge =>
      refine List.pairwise_cons.mpr ⟨?_, ih hrest⟩
      intro x hx
      rcases (insertByDist_mem p x rest).mp hx with rfl | hx
      · exact le_of_not_lt hge
      · exact hq x hx

theorem sortByDist_pairwise :
    ∀ l : List (Int × ℚ),
      List.Pairwise (fun a b : Int × ℚ => a.2 ≤ b.2) (sortByDist l) := by
  intro l
  induction l with
  | nil => simp [sortByDist]
  | cons p rest ih => exact insertByDist_pairwise p _ ih

theorem knnSearch_length (vectors : List (List ℚ)) (q : List ℚ) (k : Nat) :
    (knnSearch vectors q k).length = k := by
  rw [knnSearch]
  have h : ((sortByDist (vectors.enum.map
      fun p => ((p.1 : Int), l2sq q p.2))).take k).length ≤ k := by
    rw [List.length_take]
    omega
  simp only [List.length_append, List.length_map, List.length_replicate]
  omega

theorem resolveWithDist_length_le (st : StoreState) (ac : List StoredChunk) :
    ∀ ps : List (Int × WithTop ℚ), (resolveWithDist st ac ps).length ≤ ps.length := by
  intro ps
  induction ps with
  | nil => simp [resolveWithDist]
  | cons p rest ih =>
    obtain ⟨idx, dist⟩ := p
    simp only [resolveWithDist]
    split
    · split
      · simpa using ih
      · exact le_trans ih (by simp)
    · exact le_trans ih (by simp)

theorem resolveWithDist_dists_sublist (st : StoreState) (ac : List StoredChunk) :
    ∀ ps : List (Int × WithTop ℚ),
      List.Sublist ((resolveWithDist st ac ps).map (·.2)) (ps.map (·.2)) := by
  intro ps
  induction ps with
  | nil => simp [resolveWithDist]
  | cons p rest ih =>
    obtain ⟨idx, dist⟩ := p
    simp only [resolveWithDist]
    split
    · split
      · simpa using List.Sublist.cons₂ dist ih
      · exact List.Sublist.trans ih (List.sublist_cons_self _ _)
    · exact List.Sublist.trans ih (List.sublist_cons_self _ _)

theorem pyIndex_mem (ac : List StoredChunk) (idx : Int) (c : StoredChunk)
    (h : pyIndex ac idx = some c) : c ∈ ac := by
  rw [pyIndex] at h
  split at h
  · exact List.get?_mem h
  · dsimp only [] at h
    split at h
    · exact List.get?_mem h
    · cases h

theorem resolveWithDist_mem (st : StoreState) (ac : List StoredChunk) :
    ∀ (ps : List (Int × WithTop ℚ)) (pr : SearchResult × WithTop ℚ),
      pr ∈ resolveWithDist st ac ps → ∃ c ∈ ac, pr.1 = mkResult st c := by
  intro ps
  induction ps with
  | nil => intro pr h; simp [resolveWithDist] at h
  | cons p rest ih =>
    obtain ⟨idx, dist⟩ := p
    intro pr h
    simp only [resolveWithDist] at h
    split at h
    · split at h
      · next chunk hchunk =>
        rcases List.mem_cons.mp h with rfl | h
        · exact ⟨chunk, pyIndex_mem ac idx chunk hchunk, rfl⟩
        · exact ih pr h
      · exact ih pr h
    · exact ih pr h

theorem resolveWithDist_nil (st : StoreState) :
    ∀ ps : List (Int × WithTop ℚ), resolveWithDist st [] ps = [] := by
  intro ps
  induction ps with
  | nil => rfl
  | cons p rest ih =>
    obtain ⟨idx, dist⟩ := p
    simp only [resolveWithDist]
    split
    · have : pyIndex [] idx = none := by
        rw [pyIndex]
        split
        · rfl
        · simp only [List.length_nil]
          split
          · next h0 h1 =>
            exfalso
            omega
          · rfl
      rw [this]
      exact ih
    · exact ih

/-- A vault with one embedded chunk whose index vector is `[0]`. -/
def distSt1 : StoreState :=
  { vaults := [{ id := "v", name := "v", path := "/v", is_indexed := true }],
    documents := [{ id := "d", vault_id := "v", path := "a.md", filename := "a.md",
                    content_hash := "h" }],
    chunks := [{ id := "c", document_id := "d", content := ['x'], sequence := 0,
                 embedding_stored := true }],
    indexFiles := [("v", [[0]])] }

/-- The same vault except the stored vector is `[3]`. -/
def distSt2 : StoreState :=
  { vaults := [{ id := "v", name := "v", path := "/v", is_indexed := true }],
    documents := [{ id := "d", vault_id := "v", path := "a.md", filename := "a.md",
                    content_hash := "h" }],
    chunks := [{ id := "c", document_id := "d", content := ['x'], sequence := 0,
                 embedding_stored := true }],
    indexFiles := [("v", [[3]])] }

/-- The one record both searches return. -/
def distResult : SearchResult :=
  { chunk_id := "c", document_id := "d", document_path := "a.md",
    document_name := "a.md", content := ['x'], sequence := 0 }

/-- **C4, counterexample.**  Two searches against states that differ only in
the stored vector return the *identical* result record, although the
nearest-neighbour distances differ (`1` versus `4` for query embedding
`[1]`): the record assembled by `search` (chunk_id, document_id,
document_path, document_name, content, sequence) contains no distance field
and the distance is not recoverable from it, refuting the claim that each
returned entry contains its distance. -/
theorem search_result_lacks_distance_cex :
    search (fun _ => [1]) distSt1 "v" ['q'] 1 = .ok [distResult] ∧
    search (fun _ => [1]) distSt2 "v" ['q'] 1 = .ok [distResult] ∧
    l2sq [1] [0] = 1 ∧ l2sq [1] [3] = 4 ∧
    ¬ ∃ f : SearchResult → ℚ,
        f distResult = l2sq [1] [0] ∧ f distResult = l2sq [1] [3] := by
  refine ⟨by with_unfolding_all rfl, by with_unfolding_all rfl,
    by with_unfolding_all rfl, by with_unfolding_all rfl, ?_⟩
  rintro ⟨f, h1, h2⟩
  have h14 : l2sq [1] [0] = l2sq [1] [3] := h1.symm.trans h2
  rw [show l2sq [1] [0] = 1 by with_unfolding_all rfl,
    show l2sq [1] [3] = 4 by with_unfolding_all rfl] at h14
  norm_num at h14

/-- **C4, amended.**  For every successful `search(vault_id, query, k)`:
the result has at most `k` entries; the entries are exactly the resolved
records, in the order of the nearest-neighbour hits, whose distance column
is non-decreasing (the real hits sorted ascending, any padding slots
carrying distance `⊤`); and each entry is assembled from its resolved chunk
together with its owning document's filename and path (via `mkResult`) —
the distance itself is **not** part of the record.  This covers `k` above
the stored-vector count, where the `-1` padding labels pass the
`idx < len(all_chunks)` check and resolve, through Python's negative
indexing, to duplicates of the last id-ordered chunk. -/
theorem search_ranked_without_distance (embedText : List Char → List ℚ)
    (st : StoreState) (vault_id : String) (q : List Char) (k : Nat)
    (vectors : List (List ℚ)) (res : List SearchResult)
    (hidx : getIndex st vault_id = some vectors)
    (hok : search embedText st vault_id q k = .ok res) :
    res.length ≤ k ∧
    res = (resolveWithDist st (embeddedChunksById st vault_id)
      (knnSearch vectors (embedText q) k)).map (·.1) ∧
    List.Pairwise (fun a b : WithTop ℚ => a ≤ b)
      ((resolveWithDist st (embeddedChunksById st vault_id)
        (knnSearch vectors (embedText q) k)).map (·.2)) ∧
    ∀ r ∈ res, ∃ c ∈ embeddedChunksById st vault_id, r = mkResult st c := by
  have hpairknn : List.Pairwise (fun a b : WithTop ℚ => a ≤ b)
      ((knnSearch vectors (embedText q) k).map (·.2)) := by
    rw [knnSearch, List.map_append, List.map_map, List.map_replicate]
    refine List.pairwise_append.mpr ⟨?_, ?_, ?_⟩
    · rw [List.pairwise_map]
      have hs : List.Pairwise (fun a b : Int × ℚ => a.2 ≤ b.2)
          ((sortByDist (vectors.enum.map
            fun p => ((p.1 : Int), l2sq (embedText q) p.2))).take k) :=
        List.Pairwise.sublist (List.take_sublist _ _) (sortByDist_pairwise _)
      exact hs.imp fun h => WithTop.coe_le_coe.mpr h
    · exact List.pairwise_replicate.mpr (Or.inr le_rfl)
    · intro a _ b hb
      rw [List.eq_of_mem_replicate hb]
      exact le_top
  have hpair : List.Pairwise (fun a b : WithTop ℚ => a ≤ b)
      ((resolveWithDist st (embeddedChunksById st vault_id)
        (knnSearch vectors (embedText q) k)).map (·.2)) :=
    List.Pairwise.sublist (resolveWithDist_dists_sublist st _ _) hpairknn
  simp only [search, hidx] at hok
  split at hok
  · next hcond =>
    have hres : res = [] := (Except.ok.inj hok).symm
    subst hres
    rcases Bool.or_eq_true _ _ |>.mp hcond with hac | hhits
    · have hacnil : embeddedChunksById st vault_id = [] :=
        List.isEmpty_iff.mp hac
      refine ⟨by simp, ?_, hpair, by simp⟩
      rw [hacnil, resolveWithDist_nil]
      simp
    · have hknil : knnSearch vectors (embedText q) k = [] :=
        List.isEmpty_iff.mp hhits
      refine ⟨by simp, ?_, hpair, by simp⟩
      rw [hknil]
      simp [resolveWithDist]
  · next hcond =>
    have hres : res = (resolveWithDist st (embeddedChunksById st vault_id)
        (knnSearch vectors (embedText q) k)).map (·.1) :=
      (Except.ok.inj hok).symm
    refine ⟨?_, hres, hpair, ?_⟩
    · rw [hres, List.length_map]
      calc (resolveWithDist st (embeddedChunksById st vault_id)
            (knnSearch vectors (embedText q) k)).length
          ≤ (knnSearch vectors (embedText q) k).length :=
            resolveWithDist_length_le st _ _
        _ = k := knnSearch_length vectors (embedText q) k
    · intro r hr
      rw [hres] at hr
      obtain ⟨pr, hpr, hpr1⟩ := List.mem_map.mp hr
      obtain ⟨c, hc, hc1⟩ := resolveWithDist_mem st _ _ pr hpr
      exact ⟨c, hc, by rw [← hpr1, hc1]⟩

/-! ## OpenAI embedder (`app/services/embedder/openai_impl.py`)

`client.embeddings.create` is the remote provider call; each invocation of
an embedder method is modelled with an oracle giving the outcome of its
`n`-th provider call (`some` = returned embeddings, `none` = raised), and
results carry the number of provider calls actually made, which makes the
retry behaviour observable. -/

/-- Python `not text.strip()`: true exactly for empty/whitespace-only text. -/
def isBlank (text : List Char) : Bool :=
  text.all (·.isWhitespace)

/-- An operation result paired with the number of provider calls made. -/
structure Called (α : Type) where
  result : α
  calls : Nat
  deriving Repr, DecidableEq

/-- `OpenAIEmbedder.embed_text(text)` (lines 30–63).  Blank input
short-circuits to a zero vector of the embedding dimension without any
call.  Otherwise one provider call; if it raises, exactly one retry after
the fixed 2-second backoff; if the retry raises too, the result degrades to
a zero vector. -/
def embed_text (dim : Nat) (oracle : Nat → Option (List ℚ)) (text : List Char) :
    Called (List ℚ) :=
  if isBlank text then ⟨List.replicate dim 0, 0⟩
  else
    match oracle 0 with
    | some v => ⟨v, 1⟩
    | none =>
      match oracle 1 with
      | some v => ⟨v, 2⟩
      | none => ⟨List.replicate dim 0, 2⟩

/-- The scatter loop of `embed_batch` (lines 96–101): results start as zero
vectors, and the k-th non-blank text receives the k-th returned embedding.
(The provider contract returns exactly one embedding per non-blank input;
on a shortfall Python would raise IndexError — modelled by the zero-vector
fallback of `headD`, unreachable under the contract.) -/
def fillResults (dim : Nat) : List (List Char) → List (List ℚ) → List (List ℚ)
  | [], _ => []
  | t :: ts, ds =>
    if isBlank t then List.replicate dim 0 :: fillResults dim ts ds
    else ds.headD (List.replicate dim 0) :: fillResults dim ts ds.tail

/-- `OpenAIEmbedder.embed_batch(texts)` (lines 65–107).  Empty input: `[]`,
no call.  All-blank input: zero vectors, no call.  Otherwise a **single**
provider call on the non-blank texts, with no retry: on success the
embeddings are scattered back into position (zero vectors at blank
positions); if the call raises, **every** text of the batch degrades to a
zero vector. -/
def embed_batch (dim : Nat) (oracle : Nat → Option (List (List ℚ)))
    (texts : List (List Char)) : Called (List (List ℚ)) :=
  if texts.isEmpty then ⟨[], 0⟩
  else
    let non_empty := texts.filter fun t => !isBlank t
    if non_empty.isEmpty then ⟨texts.map fun _ => List.replicate dim 0, 0⟩
    else
      match oracle 0 with
      | some data => ⟨fillResults dim texts data, 1⟩
      | none => ⟨texts.map fun _ => List.replicate dim 0, 1⟩

/-- A provider whose first call raises and whose retry (were one made)
would succeed with the real embeddings. -/
def failThenOkOracle : Nat → Option (List (List ℚ))
  | 0 => none
  | _ => some [[5], [7]]

/-- **C3, counterexample.**  A batch of two non-blank texts whose single
provider call fails: `embed_batch` makes exactly **one** call — no retry is
attempted, although a second call would have succeeded with the real
embeddings — and **both** texts degrade to the zero vector, not only an
affected one.  This refutes the claim that a failed batch call is retried
once and that only the affected text degrades while the rest of the batch
is unaffected. -/
theorem embed_batch_no_retry_cex :
    (embed_batch 2 failThenOkOracle [['a'], ['b']]).calls = 1 ∧
    failThenOkOracle 1 = some [[5], [7]] ∧
    (embed_batch 2 failThenOkOracle [['a'], ['b']]).result = [[0, 0], [0, 0]] :=
  ⟨rfl, rfl, by with_unfolding_all rfl⟩

/-- **C3, amended.**  The retry-once-then-degrade policy belongs to the
single-text operation: for non-blank input, `embed_text` returns the first
call's embedding after one call, or — when the first call raises — the
retry's embedding after two calls, or a zero vector of the embedding
dimension after two calls when the retry raises as well.  The batch
operation `embed_batch`, by contrast, makes a single provider call with no
retry, and when that call raises every text of the batch degrades to a
zero vector. -/
theorem embedder_retry_policy (dim : Nat) :
    (∀ (oracle : Nat → Option (List ℚ)) (text : List Char),
      isBlank text = false →
        (oracle 0 = none → oracle 1 = none →
          embed_text dim oracle text = ⟨List.replicate dim 0, 2⟩) ∧
        (∀ v, oracle 0 = none → oracle 1 = some v →
          embed_text dim oracle text = ⟨v, 2⟩) ∧
        (∀ v, oracle 0 = some v → embed_text dim oracle text = ⟨v, 1⟩)) ∧
    (∀ (oracle : Nat → Option (List (List ℚ))) (texts : List (List Char)),
      (texts.filter fun t => !isBlank t) ≠ [] → oracle 0 = none →
        embed_batch dim oracle texts =
          ⟨texts.map fun _ => List.replicate dim 0, 1⟩) := by
  constructor
  · intro oracle text hblank
    refine ⟨?_, ?_, ?_⟩
    · intro h0 h1
      rw [embed_text, if_neg (by simp [hblank]), h0, h1]
    · intro v h0 h1
      rw [embed_text, if_neg (by simp [hblank]), h0, h1]
    · intro v h0
      rw [embed_text, if_neg (by simp [hblank]), h0]
  · intro oracle texts hne h0
    have htne : texts.isEmpty = false := by
      cases texts with
      | nil => exact absurd rfl hne
      | cons t ts => rfl
    have hfne : (texts.filter fun t => !isBlank t).isEmpty = false := by
      cases hf : texts.filter fun t => !isBlank t with
      | nil => exact absurd hf hne
      | cons t ts => rfl
    rw [embed_batch]
    simp only [htne, Bool.false_eq_true, if_false, hfne, h0]

/-! ## Concrete witnesses

Each theorem with hypotheses is exercised at a concrete input, every
hypothesis discharged by evaluation. -/

/-- Witness for the C2 theorem at `S = 5`, `V = 2`, a 12-character text. -/
theorem chunker_windows_correct_witness :
    2 < 5 ∧
    create_chunks (fun _ => []) "doc" 5 2 "abcdefghijkl".data =
      specChunks (fun _ => []) "doc" 5 2 "abcdefghijkl".data :=
  ⟨by decide,
   chunker_windows_correct (fun _ => []) "doc" 5 2 "abcdefghijkl".data (by decide)⟩

/-- Witness for the C5 theorem: the 12-character text reassembles. -/
theorem chunker_lossless_witness :
    2 < 5 ∧ 5 < "abcdefghijkl".data.length ∧
    reassemble 2 (create_chunks (fun _ => []) "doc" 5 2 "abcdefghijkl".data) =
      "abcdefghijkl".data :=
  ⟨by decide, by decide,
   chunker_lossless (fun _ => []) "doc" 5 2 "abcdefghijkl".data (by decide) (by decide)⟩

/-- Witness for the C10 theorem at the first produced chunk, `"abcde"`. -/
theorem chunker_chunk_bounds_witness :
    2 + 1 ≤ "abcde".data.length ∧ "abcde".data.length ≤ 5 :=
  chunker_chunk_bounds (fun _ => []) "doc" 5 2 "abcdefghijkl".data (by decide) (by decide)
    { document_id := "doc", content := "abcde".data, sequence := 0, chunk_hash := [] }
    (by decide)

/-- The vault row used by the scanner witnesses. -/
def wVault : VaultRow := { id := "v", name := "n", path := "/p", is_indexed := false }

/-- Scanned files for the C6 witness: one new, one failing, one unchanged. -/
def wFiles : List ScannedFile :=
  [{ relative_path := "a.md", filename := "a.md", parse := some "h1" },
   { relative_path := "b.md", filename := "b.md", parse := none },
   { relative_path := "c.md", filename := "c.md", parse := some "hc" }]

/-- Pre-existing document matching the third scanned file. -/
def wDocs : List DocumentRow :=
  [{ id := "dc", vault_id := "v", path := "c.md", filename := "c.md",
     content_hash := "hc" }]

/-- The output of the C6 witness scan. -/
def wScanOut : VaultRow × List DocumentRow × List DocumentRow × ScanStats :=
  ({ id := "v", name := "n", path := "/p", is_indexed := true },
   [{ id := "dc", vault_id := "v", path := "c.md", filename := "c.md",
      content_hash := "hc" }],
   [{ id := "", vault_id := "v", path := "a.md", filename := "a.md",
      content_hash := "h1" }],
   { total_files := 3, new_files := 1, updated_files := 0, unchanged_files := 1,
     errors := 1 })

/-- Witness for the C6 theorem: a scan with one failing file still counts
every file and reports `3 = 1 + 0 + 1 + 1`. -/
theorem scan_total_partition_witness :
    wScanOut.2.2.2.total_files =
        wScanOut.2.2.2.new_files + wScanOut.2.2.2.updated_files +
          wScanOut.2.2.2.unchanged_files + wScanOut.2.2.2.errors ∧
      wScanOut.2.2.2.errors = wFiles.countP (fun f => f.parse.isNone) :=
  scan_total_partition (some wVault) true wFiles wDocs wScanOut (by decide)

/-- The output of the C9 witness scan, in which every file errored. -/
def wScanAllErrOut : VaultRow × List DocumentRow × List DocumentRow × ScanStats :=
  ({ id := "v", name := "n", path := "/p", is_indexed := true }, [], [],
   { total_files := 2, new_files := 0, updated_files := 0, unchanged_files := 0,
     errors := 2 })

/-- Witness for the C9 theorem: even a scan in which both files errored
leaves `is_indexed = true`. -/
theorem scan_sets_is_indexed_witness : wScanAllErrOut.1.is_indexed = true :=
  scan_sets_is_indexed (some wVault) true
    [{ relative_path := "a.md", filename := "a.md", parse := none },
     { relative_path := "b.md", filename := "b.md", parse := none }]
    [] wScanAllErrOut (by decide)

/-- A vault whose only chunk is already embedded, with an existing index. -/
def wNoPendSt : StoreState :=
  { vaults := [{ id := "v", name := "v", path := "/v", is_indexed := true }],
    documents := [{ id := "d", vault_id := "v", path := "a.md", filename := "a.md",
                    content_hash := "h" }],
    chunks := [{ id := "c", document_id := "d", content := ['x'], sequence := 0,
                 embedding_stored := true }],
    indexFiles := [("v", [[1]])] }

/-- Witness for the C8 theorem: no pending chunks, `{0, 0}`, state (and
hence index file) untouched. -/
theorem build_no_pending_is_noop_witness :
    create_or_update_index (fun xs => xs.map fun _ => [0]) wNoPendSt "v" =
      .ok (wNoPendSt, { chunks_processed := 0, vectors_added := 0 }) :=
  build_no_pending_is_noop (fun xs => xs.map fun _ => [0]) wNoPendSt "v"
    (by decide) (by decide)

/-- A vault with no index file at all. -/
def wNoIdxSt : StoreState :=
  { vaults := [{ id := "v", name := "v", path := "/v", is_indexed := true }],
    documents := [], chunks := [], indexFiles := [] }

/-- A vault whose index file exists but holds zero vectors, with no
embedded chunks (the consistent zero-vector state). -/
def wEmptyIdxSt : StoreState :=
  { vaults := [{ id := "v", name := "v", path := "/v", is_indexed := true }],
    documents := [{ id := "d", vault_id := "v", path := "a.md", filename := "a.md",
                    content_hash := "h" }],
    chunks := [{ id := "c", document_id := "d", content := ['x'], sequence := 0,
                 embedding_stored := false }],
    indexFiles := [("v", [])] }

/-- Witness for the C7 theorem: missing index errors; empty index yields
`[]`. -/
theorem search_no_index_and_empty_index_witness :
    search (fun _ => [1]) wNoIdxSt "v" ['q'] 3 = .error "No index found for vault" ∧
    search (fun _ => [1]) wEmptyIdxSt "v" ['q'] 3 = .ok [] :=
  ⟨(search_no_index_and_empty_index (fun _ => [1]) wNoIdxSt "v" ['q'] 3).1 rfl,
   (search_no_index_and_empty_index (fun _ => [1]) wEmptyIdxSt "v" ['q'] 3).2
     rfl (by decide)⟩

/-- A vault whose two pending chunks sit in table order that coincides with
id order ("a" before "b"), no index, nothing embedded. -/
def wAlignedSt : StoreState :=
  { vaults := [{ id := "v", name := "v", path := "/v", is_indexed := true }],
    documents := [{ id := "d", vault_id := "v", path := "a.md", filename := "a.md",
                    content_hash := "h" }],
    chunks := [{ id := "a", document_id := "d", content := ['A'], sequence := 0,
                 embedding_stored := false },
               { id := "b", document_id := "d", content := ['B'], sequence := 1,
                 embedding_stored := false }],
    indexFiles := [] }

/-- The batch embedder of the C1 witness. -/
def wEmbed : List (List Char) → List (List ℚ) := fun xs => xs.map fun _ => [0]

/-- The state after building `wAlignedSt`. -/
def wAlignedStAfter : StoreState :=
  { vaults := [{ id := "v", name := "v", path := "/v", is_indexed := true }],
    documents := [{ id := "d", vault_id := "v", path := "a.md", filename := "a.md",
                    content_hash := "h" }],
    chunks := [{ id := "a", document_id := "d", content := ['A'], sequence := 0,
                 embedding_stored := true },
               { id := "b", document_id := "d", content := ['B'], sequence := 1,
                 embedding_stored := true }],
    indexFiles := [("v", [[0], [0]])] }

/-- Witness for the amended C1 theorem: with id-sorted pending rows the
index holds the batch embeddings and ordinal 0 resolves to the chunk
fetched first. -/
theorem build_then_resolution_aligned_witness :
    getIndex wAlignedStAfter "v" =
      some (wEmbed ((pendingChunks wAlignedSt "v").map (·.content))) ∧
    ((embeddedChunksById wAlignedStAfter "v").get? 0).map (·.id) =
      ((pendingChunks wAlignedSt "v").get? 0).map (·.id) := by
  have h := build_then_resolution_aligned wEmbed wAlignedSt "v" wAlignedStAfter
    { chunks_processed := 2, vectors_added := 2 }
    (by with_unfolding_all decide) (by decide) rfl (by decide)
    (by with_unfolding_all rfl)
  exact ⟨h.1, h.2 0⟩

/-- Witness for the amended C4 theorem at a one-vector index and `k = 3`:
the FAISS-padding regime, where the two `-1` padding labels resolve (via
Python negative indexing) to duplicates of the last chunk. -/
theorem search_ranked_without_distance_witness :
    ([distResult, distResult, distResult] : List SearchResult).length ≤ 3 ∧
    [distResult, distResult, distResult] =
      (resolveWithDist distSt1 (embeddedChunksById distSt1 "v")
        (knnSearch [[0]] [1] 3)).map (·.1) := by
  have h := search_ranked_without_distance (fun _ => [1]) distSt1 "v" ['q'] 3
    [[0]] [distResult, distResult, distResult] rfl (by with_unfolding_all rfl)
  exact ⟨h.1, h.2.1⟩

/-- Witness for the amended C3 theorem: a doubly-failing single-text call
degrades to the zero vector after two calls, and a failing batch call
zeroes the whole batch after one call. -/
theorem embedder_retry_policy_witness :
    embed_text 2 (fun _ => none) ['a'] = ⟨[0, 0], 2⟩ ∧
    embed_batch 2 (fun _ => none) [['a'], ['b']] = ⟨[[0, 0], [0, 0]], 1⟩ := by
  obtain ⟨ht, hb⟩ := embedder_retry_policy 2
  exact ⟨(ht (fun _ => none) ['a'] (by decide)).1 rfl rfl,
         hb (fun _ => none) [['a'], ['b']] (by decide) rfl⟩

end ObsidianChat
